import Mathlib

/-!
Verification of the request-orchestration layer of the Capstone email-security
Chromium extension.  The definitions below are shallow embeddings of the
TypeScript sources:

* `src/chrome-extension-webgpu-service-worker/src/types.ts` (message shapes),
* `src/chrome-extension-webgpu-service-worker/src/background.ts`
  (both snapshots of the service-worker orchestrator: the
  `MAX_CONCURRENT_REQUESTS` variant and the single-flight variant with
  insufficient-resource handling, idle cleanup, and memory polling),
* `src/chrome-extension-webgpu-service-worker/src/popup.ts` (second snapshot:
  the offscreen inference code with `getOptimalModelConfig`, the GBNF output
  grammar, and the `attemptInference` context-budget gate),
* `src/chrome-extension-webgpu-service-worker/src/messageQueue.ts` and the
  newer snapshot in `src/unnamed/part_006` (the client request queue with the
  `attemptReconnect` loop).

Stateful code is embedded as explicit step functions on state records driven
by an event datatype, with reachability as an inductive closure of the step
function from the initial state.  Asynchronous functions are split at their
suspension points (`await` boundaries); a pending zero-delay reschedule of a
queue-processing function (`setTimeout(f, 0)`) is folded into the event that
schedules it.  JavaScript numbers are embedded as `Nat`/`Int`/`Rat`; opaque
request-id strings are embedded as `Nat`.
-/

/-! ## Message shapes, from `types.ts` -/

/-- The `type` field of an `AnalysisResult` (newer `types.ts` snapshot,
`src/unnamed/part_003`, which includes the `error` alternative). -/
inductive ThreatType where
  | safe
  | spam
  | unknown_threat
  | malware
  | data_exfiltration
  | phishing
  | scam
  | extortion
  | error
  deriving DecidableEq

/-- `AnalysisResult` from `types.ts`. -/
structure AnalysisResult where
  brief_analysis : String
  type : ThreatType
  confidence : ℚ
  deriving DecidableEq

/-- The `responseType` discriminator of a `ResponseMessage`. -/
inductive RespKind where
  | completion
  | error
  deriving DecidableEq

/-- `ResponseMessage` from `types.ts`; the opaque `requestId` string is
embedded as a `Nat`. -/
structure ResponseMessage where
  responseType : RespKind
  requestId : ℕ
  brief_analysis : String
  type : ThreatType
  confidence : ℚ
  deriving DecidableEq

/-- `newResponseMessage` from `types.ts` (a field-for-field copy). -/
def newResponseMessage (args : ResponseMessage) : ResponseMessage := args

/-! ## JavaScript `||`-defaulting

`systemInfo?.availableRAMMB || 4096` falls back to the default when the field
is `undefined` and also when it is `0` (zero is falsy in JavaScript). -/

/-- JavaScript `v || d` for an optional numeric `v`. -/
def jsOrDefault (v : Option ℕ) (d : ℕ) : ℕ :=
  match v with
  | none => d
  | some n => if n = 0 then d else n

/-! ## `getOptimalModelConfig`, from the newer offscreen snapshot
(`popup.ts`, lines 166-227) -/

/-- `baseModelSizeMB` from `getOptimalModelConfig`. -/
def baseModelSizeMB : ℕ := 2989

/-- `minContextSizeMB` from `getOptimalModelConfig`. -/
def minContextSizeMB : ℕ := 211

/-- `safetyMarginMB` from `getOptimalModelConfig`. -/
def safetyMarginMB : ℕ := 512

/-- `totalRequiredMB = baseModelSizeMB + minContextSizeMB + safetyMarginMB`. -/
def totalRequiredMB : ℕ := baseModelSizeMB + minContextSizeMB + safetyMarginMB

/-- `getMemoryAlignedValue` (popup snapshot): `Math.floor(value / 256) * 256`.
All call sites pass nonnegative values, so `Nat` floor division is exact. -/
def getMemoryAlignedValue (value : ℕ) : ℕ :=
  value / 256 * 256

/-- The configuration record returned by `getOptimalModelConfig`. -/
structure ModelConfig where
  modelName : String
  n_threads : ℕ
  n_ctx : ℕ
  n_batch : ℕ
  deriving DecidableEq

/-- The payload of the `insufficientResources` message sent to the background
script when the model does not fit. -/
structure InsufficientResourcesReport where
  requiredRAMMB : ℕ
  availableRAMMB : ℕ
  deriving DecidableEq

/-- `getOptimalModelConfig` from the newer offscreen snapshot (`popup.ts`,
lines 166-227).  The inputs are the fields of the `getSystemInfo` response
(`undefined` fields embedded as `none`); `totalRAMMB` is only logged by the
source and does not influence the result.  The token memory cost
`0.0978` MB/token is embedded as the rational `978 / 10000`, so
`Math.floor(x / 0.0978)` becomes `x * 10000 / 978` in `Nat` arithmetic
(exact for the nonnegative values reachable past the memory guard).
Returns `Except.error` exactly where the source sends the
`insufficientResources` message and returns `null`. -/
def getOptimalModelConfig (availableRAMMB? totalRAMMB? hardwareConcurrency? cpuThreads? : Option ℕ) :
    Except InsufficientResourcesReport ModelConfig :=
  let availableRAMMB := jsOrDefault availableRAMMB? 4096
  let _totalRAMMB := jsOrDefault totalRAMMB? 8192
  let cpuThreads := jsOrDefault hardwareConcurrency? (jsOrDefault cpuThreads? 4)
  if availableRAMMB < totalRequiredMB then
    .error { requiredRAMMB := totalRequiredMB, availableRAMMB := availableRAMMB }
  else
    let calculatedCtx := (availableRAMMB - safetyMarginMB - baseModelSizeMB) * 10000 / 978
    let alignedCtx := getMemoryAlignedValue calculatedCtx
    let constrainedCtx := max 2048 (min alignedCtx 9984)
    .ok { modelName := "gemma-3-4b-it-qat-q4_0-gguf"
          n_threads := max 2 (cpuThreads * 3 / 4)
          n_ctx := constrainedCtx
          n_batch := 256 }

/-! ## The GBNF output grammar's `confidence` rule

From the `jsonGrammar` constants: the newer snapshot (`popup.ts`, lines
130-139) has `confidence ::= "0" | "0." [0-9]{1,2} | "1" | "1.0"`, and the
older snapshot (`offscreen.ts`, lines 12-20) has
`confidence ::= "0" | "0." [0-9]+ | "1" | "1.0"`. -/

/-- Strings derivable from the `confidence` nonterminal of the newer grammar
snapshot: `"0" | "0." [0-9]{1,2} | "1" | "1.0"`. -/
inductive ConfidenceString : String → Prop where
  | zero : ConfidenceString "0"
  | zeroDot (ds : List Char) (h1 : 1 ≤ ds.length) (h2 : ds.length ≤ 2)
      (hd : ∀ c ∈ ds, '0' ≤ c ∧ c ≤ '9') :
      ConfidenceString (String.mk ('0' :: '.' :: ds))
  | one : ConfidenceString "1"
  | oneDotZero : ConfidenceString "1.0"

/-- Strings derivable from the `confidence` nonterminal of the older grammar
snapshot: `"0" | "0." [0-9]+ | "1" | "1.0"`. -/
inductive ConfidenceStringOld : String → Prop where
  | zero : ConfidenceStringOld "0"
  | zeroDot (ds : List Char) (h1 : 1 ≤ ds.length)
      (hd : ∀ c ∈ ds, '0' ≤ c ∧ c ≤ '9') :
      ConfidenceStringOld (String.mk ('0' :: '.' :: ds))
  | one : ConfidenceStringOld "1"
  | oneDotZero : ConfidenceStringOld "1.0"

/-- The numeric value of a decimal digit character. -/
def digitToNat (c : Char) : ℕ := c.toNat - 48

/-- The value of a digit string read as a decimal integer. -/
def intDigitsVal (cs : List Char) : ℕ :=
  cs.foldl (fun a c => 10 * a + digitToNat c) 0

/-- The value of a digit string read as a decimal fraction (the part after
the decimal point). -/
def fracDigitsVal : List Char → ℚ
  | [] => 0
  | c :: cs => ((digitToNat c : ℚ) + fracDigitsVal cs) / 10

/-- The numeric value of a decimal literal, as `JSON.parse` reads the
grammar's output: integer part, optional `.`, fractional part. -/
def decimalCharsVal (cs : List Char) : ℚ :=
  match cs.dropWhile (fun c => c ≠ '.') with
  | [] => intDigitsVal cs
  | _ :: fp => intDigitsVal (cs.takeWhile (fun c => c ≠ '.')) + fracDigitsVal fp

/-- The numeric value of a decimal literal string. -/
def decimalStringVal (s : String) : ℚ := decimalCharsVal s.data

/-! ## The `attemptInference` context-budget gate, from the newer offscreen
snapshot (`popup.ts`, lines 329-351) -/

/-- The state read by the context-budget check inside `attemptInference`:
the loaded configuration's context size (`currentModelConfig?.n_ctx`), the
token length of the fixed system instructions
(`tokensToKeepForSystemPrompt`), and the token count of the request's prompt
(`await getTokenCount(request.prompt)`). -/
structure InferenceGateInput where
  n_ctx? : Option ℕ
  tokensToKeepForSystemPrompt : ℕ
  promptTokens : ℕ
  deriving DecidableEq

/-- Outcome of the context-budget check: either the synthesized "too long"
result is returned without invoking the engine, or control proceeds to
`wllama.createCompletion`. -/
inductive InferenceOutcome where
  | tooLong (result : AnalysisResult)
  | invoke (promptTokens : ℕ)
  deriving DecidableEq

/-- The synthesized "too long" result returned by the short-circuit. -/
def tooLongResult : AnalysisResult :=
  { brief_analysis := "The input text is too long to process reliably within the available context window. Unable to provide accurate threat assessment."
    type := .unknown_threat
    confidence := 1/2 }

/-- The context-budget gate of `attemptInference` (newer snapshot,
`popup.ts`, lines 336-351):
`contextSize = currentModelConfig?.n_ctx || 4096`,
`remainingTokens = contextSize - tokensToKeepForSystemPrompt`, and the
short-circuit fires when `remainingTokens <= 50`.  The prompt token count is
computed (`tokens`) but does not occur in the condition. -/
def attemptInferenceGate (inp : InferenceGateInput) : InferenceOutcome :=
  let contextSize : ℤ := jsOrDefault inp.n_ctx? 4096
  let remainingTokens : ℤ := contextSize - inp.tokensToKeepForSystemPrompt
  if remainingTokens ≤ 50 then .tooLong tooLongResult
  else .invoke inp.promptTokens

/-! ## The Client Request Queue, from `messageQueue.ts` and the newer
snapshot in `src/unnamed/part_006`

State of the module-level variables.  `generateRequestId` returns a fresh
opaque random string; freshness is embedded by using the submission counter
`nextId` as the request id, so the queue holds the ids of the queued
submissions in submission order.  The completion handler registered for a
request is identified by its request id; handler invocations are logged in
`fired` (in invocation order) instead of calling a function value.
`dispatched` logs, in order, every id posted on the channel
(`port.postMessage`).  `reconnectPending` records that an `attemptReconnect`
timer/call is outstanding after a disconnect. -/
structure MQState where
  portConnected : Bool
  isProcessingQueue : Bool
  messageQueue : List ℕ
  messageHandlers : List ℕ
  nextId : ℕ
  dispatched : List ℕ
  fired : List ℕ
  reconnectPending : Bool
  deriving DecidableEq

/-- The initial state of the client request queue module (after the
module-level `connectToServiceWorker()` call). -/
def mqInit : MQState :=
  { portConnected := true
    isProcessingQueue := false
    messageQueue := []
    messageHandlers := []
    nextId := 0
    dispatched := []
    fired := []
    reconnectPending := false }

/-- The fixed reconnect backoff delay (ms): `setTimeout(attemptReconnect, 1000)`
in `part_006` (and `setTimeout(connectToServiceWorker, 1000)` in the older
`messageQueue.ts` snapshot). -/
def RECONNECT_DELAY : ℕ := 1000

/-- `processNextQueueItem` from `messageQueue.ts`: returns unchanged if the
queue is empty or an item is already being processed; otherwise marks the
queue busy, pops the head, registers its completion handler under a fresh
request id, and posts the request message on the port
(`connectToServiceWorker` succeeds synchronously when the port is null). -/
def processNextQueueItem (s : MQState) : MQState :=
  if s.messageQueue.isEmpty ∨ s.isProcessingQueue then s
  else
    match s.messageQueue with
    | [] => s
    | h :: rest =>
      { s with isProcessingQueue := true
               messageQueue := rest
               portConnected := true
               messageHandlers := s.messageHandlers ++ [h]
               dispatched := s.dispatched ++ [h] }

/-- `sendEmailContent` from `messageQueue.ts`: registers the handler, appends
the submission to the queue, and processes immediately when nothing is being
processed. -/
def sendEmailContent (s : MQState) : MQState :=
  let s := { s with messageQueue := s.messageQueue ++ [s.nextId], nextId := s.nextId + 1 }
  if s.isProcessingQueue then s else processNextQueueItem s

/-- The `port.onMessage` listener from `messageQueue.ts` (identical for the
`completion` and `error` branches): if a handler is registered for the
response's request id, invoke it, remove it, clear the busy flag and process
the next queued item (the `setTimeout(processNextQueueItem, 0)` is folded
in); otherwise do nothing. -/
def portOnMessage (s : MQState) (id : ℕ) : MQState :=
  if id ∈ s.messageHandlers then
    processNextQueueItem
      { s with fired := s.fired ++ [id]
               messageHandlers := s.messageHandlers.erase id
               isProcessingQueue := false }
  else s

/-- The `port.onDisconnect` listener from the `part_006` snapshot: the port
is nulled, the busy flag cleared, and `attemptReconnect` is started; no
completion handler is invoked and the queue is untouched. -/
def portOnDisconnect (s : MQState) : MQState :=
  { s with portConnected := false, isProcessingQueue := false, reconnectPending := true }

/-- One `attemptReconnect` attempt from the `part_006` snapshot.  `ok` is
whether `connectToServiceWorker` obtained a usable port: on failure another
attempt is scheduled `RECONNECT_DELAY` ms later (`reconnectPending` stays
set); on success draining resumes via `processNextQueueItem`. -/
def attemptReconnect (ok : Bool) (s : MQState) : MQState :=
  if s.reconnectPending then
    if ok then
      processNextQueueItem { s with portConnected := true, reconnectPending := false }
    else s
  else s

/-- Reachability of the client request queue under submissions and response
deliveries only (no channel disconnects). -/
inductive MQSteadyReach : MQState → Prop where
  | init : MQSteadyReach mqInit
  | submit {s} : MQSteadyReach s → MQSteadyReach (sendEmailContent s)
  | deliver (id : ℕ) {s} : MQSteadyReach s → MQSteadyReach (portOnMessage s id)

/-- Reachability of the client request queue under the full event set,
including channel disconnects and reconnect attempts. -/
inductive MQReach : MQState → Prop where
  | init : MQReach mqInit
  | submit {s} : MQReach s → MQReach (sendEmailContent s)
  | deliver (id : ℕ) {s} : MQReach s → MQReach (portOnMessage s id)
  | disconnect {s} : MQReach s → MQReach (portOnDisconnect s)
  | reconnect (ok : Bool) {s} : MQReach s → MQReach (attemptReconnect ok s)

/-- The inductive invariant of the steady (no-disconnect) client queue:
writing `d` for the number of dispatched requests, `f` for the number of
fired handlers and `n` for the number of submissions, the dispatch log is
`0, 1, ..., d-1`, the firing log is `0, 1, ..., f-1`, the registered
handlers are the dispatched-but-unanswered ids, the queue holds the
not-yet-dispatched submissions in order, at most one dispatched request is
unanswered, and the busy flag is set exactly while one is. -/
def mqInv (s : MQState) : Prop :=
  s.dispatched = List.range s.dispatched.length ∧
  s.fired = List.range s.fired.length ∧
  s.fired.length ≤ s.dispatched.length ∧
  s.dispatched.length ≤ s.fired.length + 1 ∧
  s.messageHandlers = (List.range s.dispatched.length).drop s.fired.length ∧
  s.messageQueue = (List.range s.nextId).drop s.dispatched.length ∧
  s.dispatched.length ≤ s.nextId ∧
  s.isProcessingQueue = decide (s.fired.length < s.dispatched.length)

/-! ## The Background Orchestrator, single-flight snapshot
(`background.ts`, lines 196-558)

The orchestrator state collects the module-level variables of the snapshot.
`inFlight` holds the requests that have been dequeued and handed to
`processRequest` but whose processing has not completed, each tagged with the
suspension point (`await`) its `processRequest` run is parked at; `responses`
logs every `port.postMessage`; `createAttempts` counts the invocations of
`createOffscreenDocument` and `workerDestroyCount` the completed
`chrome.offscreen.closeDocument()` calls; `dequeueCount` counts the requests
shifted off `requestsQueue`.  The idle-cleanup `setTimeout` handle is
embedded as the flag `cleanupTimerArmed` and the memory-polling `setInterval`
handle as `memoryPollingActive`. -/

/-- The suspension point at which an in-flight `processRequest` run is
parked: awaiting `createOffscreenDocument`, inside the 100 ms
model-load-wait interval, or awaiting the `inference` round trip to the
offscreen document. -/
inductive ReqPhase where
  | creating
  | waitingModel
  | inferring
  deriving DecidableEq

/-- State of the single-flight background orchestrator snapshot. -/
structure BGState where
  isProcessing : Bool
  requestsQueue : List ℕ
  hasInsufficientResources : Bool
  requiredRAMMB : Option ℕ
  availableRAMMB : Option ℕ
  isOffscreenDocumentReady : Bool
  isModelLoaded : Bool
  cleanupTimerArmed : Bool
  memoryPollingActive : Bool
  inFlight : List (ℕ × ReqPhase)
  responses : List ResponseMessage
  createAttempts : ℕ
  workerDestroyCount : ℕ
  dequeueCount : ℕ
  deriving DecidableEq

/-- The initial orchestrator state. -/
def bgInit : BGState :=
  { isProcessing := false
    requestsQueue := []
    hasInsufficientResources := false
    requiredRAMMB := none
    availableRAMMB := none
    isOffscreenDocumentReady := false
    isModelLoaded := false
    cleanupTimerArmed := false
    memoryPollingActive := false
    inFlight := []
    responses := []
    createAttempts := 0
    workerDestroyCount := 0
    dequeueCount := 0 }

/-- `CLEANUP_DELAY` from `background.ts`: 60000 ms (1 minute). -/
def CLEANUP_DELAY : ℕ := 60000

/-- `MEMORY_POLLING_INTERVAL` from `background.ts`: 5000 ms (5 seconds). -/
def MEMORY_POLLING_INTERVAL : ℕ := 5000

/-- `sendInsufficientResourcesError` from `background.ts` (lines 406-416):
the terminal response synthesized for a request admitted while
`hasInsufficientResources` is set. -/
def sendInsufficientResourcesError (requestId : ℕ) : ResponseMessage :=
  newResponseMessage
    { responseType := .error
      requestId := requestId
      brief_analysis := "Cannot process request due to insufficient system resources"
      type := .unknown_threat
      confidence := 0 }

/-- `sendErrorResponse` from `background.ts` (lines 418-428): the terminal
response synthesized in the catch-all of `processRequest`. -/
def sendErrorResponse (requestId : ℕ) (errMessage : String) : ResponseMessage :=
  { responseType := .error
    requestId := requestId
    brief_analysis := errMessage
    type := .unknown_threat
    confidence := 0 }

/-- `cleanupOffscreenDocument` from `background.ts` (lines 307-314): if an
offscreen document exists, close it and clear the readiness and model
flags. -/
def cleanupOffscreenDocument (s : BGState) : BGState :=
  if s.isOffscreenDocumentReady then
    { s with isOffscreenDocumentReady := false
             isModelLoaded := false
             workerDestroyCount := s.workerDestroyCount + 1 }
  else s

/-- `processQueue` from the single-flight snapshot (`background.ts`, lines
317-342), with `processRequest` (lines 345-404) run synchronously up to its
first suspension point.  Each pass cancels any pending idle-cleanup timer;
an empty queue arms the timer; a busy orchestrator returns; otherwise the
head request is dequeued and `processRequest` starts: if
`hasInsufficientResources` is set the synthesized error is posted at once
and the `.finally` reschedule of `processQueue` (folded in as the recursive
call) continues with the rest of the queue; otherwise the run parks at
`await createOffscreenDocument()` (counting the creation attempt), at the
model-load-wait interval, or at the `inference` send.  The fuel argument
bounds the folded reschedules; `processQueue` passes enough fuel to drain
the whole queue. -/
def processQueueFuel : ℕ → BGState → BGState
  | 0, s => s
  | fuel + 1, s =>
    let s := { s with cleanupTimerArmed := false }
    if s.requestsQueue.isEmpty then { s with cleanupTimerArmed := true }
    else if s.isProcessing then s
    else
      match s.requestsQueue with
      | [] => s
      | r :: rest =>
        if s.hasInsufficientResources then
          processQueueFuel fuel
            { s with requestsQueue := rest
                     dequeueCount := s.dequeueCount + 1
                     responses := s.responses ++ [sendInsufficientResourcesError r] }
        else if s.isOffscreenDocumentReady = false then
          { s with requestsQueue := rest
                   isProcessing := true
                   inFlight := [(r, .creating)]
                   dequeueCount := s.dequeueCount + 1
                   createAttempts := s.createAttempts + 1 }
        else if s.isModelLoaded = false then
          { s with requestsQueue := rest
                   isProcessing := true
                   inFlight := [(r, .waitingModel)]
                   dequeueCount := s.dequeueCount + 1 }
        else
          { s with requestsQueue := rest
                   isProcessing := true
                   inFlight := [(r, .inferring)]
                   dequeueCount := s.dequeueCount + 1 }

/-- `processQueue` with enough fuel to drain the current queue. -/
def processQueue (s : BGState) : BGState :=
  processQueueFuel (s.requestsQueue.length + 1) s

/-- Completion of the in-flight request: the terminal response is posted,
the `.finally` clears `isProcessing`, and the rescheduled `processQueue`
runs. -/
def completeRequest (s : BGState) (resp : ResponseMessage) : BGState :=
  processQueue
    { s with isProcessing := false
             inFlight := []
             responses := s.responses ++ [resp] }

/-- Continuation of `processRequest` after `await createOffscreenDocument()`
returns: wait for the model unless it is loaded or resources ran short;
re-check the resource flag; otherwise cancel any pending cleanup and send
the inference request. -/
def continueAfterCreate (s : BGState) (r : ℕ) : BGState :=
  if s.isModelLoaded = false ∧ s.hasInsufficientResources = false then
    { s with inFlight := [(r, .waitingModel)] }
  else if s.hasInsufficientResources then
    completeRequest s (sendInsufficientResourcesError r)
  else
    { s with cleanupTimerArmed := false, inFlight := [(r, .inferring)] }

/-- Events driving the single-flight orchestrator: client submissions
(`port.onMessage`), resolution of the suspension points of the in-flight
`processRequest` run, the offscreen document's control messages, one tick of
the 5-second memory-polling interval carrying the probed available memory,
and the idle-cleanup timer firing. -/
inductive BGEvent where
  | submit (r : ℕ)
  | createDone
  | createFail (e : String)
  | wakeModelWait
  | inferDone (res : Except String AnalysisResult)
  | modelLoadedMsg
  | modelLoadErrorMsg
  | insufficientResourcesMsg (req avail : ℕ)
  | pollTick (a : ℕ)
  | cleanupFire

/-- The step function of the single-flight orchestrator. -/
def bgStep : BGEvent → BGState → BGState
  | .submit r, s =>
    processQueue { s with requestsQueue := s.requestsQueue ++ [r] }
  | .createDone, s =>
    match s.inFlight with
    | [(r, ReqPhase.creating)] =>
      continueAfterCreate { s with isOffscreenDocumentReady := true } r
    | _ => s
  | .createFail e, s =>
    match s.inFlight with
    | [(r, ReqPhase.creating)] => completeRequest s (sendErrorResponse r e)
    | _ => s
  | .wakeModelWait, s =>
    match s.inFlight with
    | [(r, ReqPhase.waitingModel)] =>
      if s.isModelLoaded ∨ s.hasInsufficientResources then
        if s.hasInsufficientResources then
          completeRequest s (sendInsufficientResourcesError r)
        else
          { s with cleanupTimerArmed := false, inFlight := [(r, .inferring)] }
      else s
    | _ => s
  | .inferDone res, s =>
    match s.inFlight with
    | [(r, ReqPhase.inferring)] =>
      match res with
      | .ok result =>
        completeRequest s (newResponseMessage
          { responseType := .completion
            requestId := r
            brief_analysis := result.brief_analysis
            type := result.type
            confidence := result.confidence })
      | .error e => completeRequest s (sendErrorResponse r e)
    | _ => s
  | .modelLoadedMsg, s =>
    processQueue { s with isModelLoaded := true, hasInsufficientResources := false }
  | .modelLoadErrorMsg, s =>
    { s with isModelLoaded := false }
  | .insufficientResourcesMsg req avail, s =>
    let s := { s with hasInsufficientResources := true
                      requiredRAMMB := some req
                      availableRAMMB := some avail
                      isModelLoaded := false }
    let s := processQueue s
    let s := cleanupOffscreenDocument s
    { s with memoryPollingActive := true }
  | .pollTick a, s =>
    if s.memoryPollingActive then
      if (match s.requiredRAMMB with
          | none => true
          | some required => decide (required ≤ a)) then
        let s := { s with hasInsufficientResources := false, memoryPollingActive := false }
        if s.requestsQueue.isEmpty then s else processQueue s
      else s
    else s
  | .cleanupFire, s =>
    if s.cleanupTimerArmed then
      cleanupOffscreenDocument { s with cleanupTimerArmed := false }
    else s

/-- Reachability of the single-flight orchestrator. -/
inductive BGReachable : BGState → Prop where
  | init : BGReachable bgInit
  | step (e : BGEvent) {s} : BGReachable s → BGReachable (bgStep e s)

/-- The inductive invariant of the single-flight orchestrator: `isProcessing`
is set exactly while a dequeued request is uncompleted, at most one request
is ever in flight, and every dequeued request has exactly one posted
terminal response once it leaves `inFlight`. -/
def bgInv (s : BGState) : Prop :=
  (s.isProcessing = false → s.inFlight = []) ∧
  (s.isProcessing = true → ∃ p, s.inFlight = [p]) ∧
  s.responses.length + s.inFlight.length = s.dequeueCount

/-! ## The Background Orchestrator, `MAX_CONCURRENT_REQUESTS` snapshot
(`background.ts`, lines 1-193) -/

/-- `MAX_CONCURRENT_REQUESTS` from the older `background.ts` snapshot. -/
def MAX_CONCURRENT_REQUESTS : ℕ := 3

/-- State of the `MAX_CONCURRENT_REQUESTS` orchestrator snapshot:
`activeRequestsCount` and `requestsQueue` are the module variables;
`inFlightA` tracks the dequeued requests whose `processRequest` has not
completed. -/
structure QAState where
  activeRequestsCount : ℕ
  requestsQueue : List ℕ
  inFlightA : List ℕ
  deriving DecidableEq

/-- Initial state of the `MAX_CONCURRENT_REQUESTS` orchestrator. -/
def qaInit : QAState := { activeRequestsCount := 0, requestsQueue := [], inFlightA := [] }

/-- The `while (activeRequestsCount < MAX_CONCURRENT_REQUESTS &&
requestsQueue.length > 0)` admission loop of the older `processQueue`
(`background.ts`, lines 67-85): each iteration shifts the head request,
increments `activeRequestsCount` and starts `processRequest` on it.  The
fuel is the initial queue length, which bounds the iterations exactly. -/
def admitLoopA : ℕ → QAState → QAState
  | 0, s => s
  | fuel + 1, s =>
    if s.activeRequestsCount < MAX_CONCURRENT_REQUESTS then
      match s.requestsQueue with
      | [] => s
      | r :: rest =>
        admitLoopA fuel
          { activeRequestsCount := s.activeRequestsCount + 1
            requestsQueue := rest
            inFlightA := s.inFlightA ++ [r] }
    else s

/-- `processQueue` from the older snapshot. -/
def processQueueA (s : QAState) : QAState := admitLoopA s.requestsQueue.length s

/-- `handleMessage` from the older snapshot: push the request and run
`processQueue`. -/
def handleMessageA (r : ℕ) (s : QAState) : QAState :=
  processQueueA { s with requestsQueue := s.requestsQueue ++ [r] }

/-- Completion of one in-flight request in the older snapshot: the
`.finally` decrements `activeRequestsCount` and reschedules
`processQueue`. -/
def completeA (r : ℕ) (s : QAState) : QAState :=
  if r ∈ s.inFlightA then
    processQueueA
      { activeRequestsCount := s.activeRequestsCount - 1
        requestsQueue := s.requestsQueue
        inFlightA := s.inFlightA.erase r }
  else s

/-- Reachability of the `MAX_CONCURRENT_REQUESTS` orchestrator. -/
inductive QAReachable : QAState → Prop where
  | init : QAReachable qaInit
  | submit (r : ℕ) {s} : QAReachable s → QAReachable (handleMessageA r s)
  | complete (r : ℕ) {s} : QAReachable s → QAReachable (completeA r s)

/-! # Theorems -/

/-! ## Client request queue invariants -/

theorem mqInv_init : mqInv mqInit := by
  simp [mqInv, mqInit]

theorem mqInv_processNext {s : MQState} (h : mqInv s) : mqInv (processNextQueueItem s) := by
  obtain ⟨hd, hf, hfd, hdf, hh, hq, hdn, hp⟩ := h
  unfold processNextQueueItem
  split
  · exact ⟨hd, hf, hfd, hdf, hh, hq, hdn, hp⟩
  case isFalse hguard =>
    push_neg at hguard
    obtain ⟨hne, hnp⟩ := hguard
    have hfd' : s.fired.length = s.dispatched.length := by
      have hnot : ¬ (s.fired.length < s.dispatched.length) := by
        intro hlt
        rw [hp] at hnp
        exact hnp (by simpa using hlt)
      omega
    have hdllt : s.dispatched.length < s.nextId := by
      have hnil : s.messageQueue ≠ [] := by
        intro hnil
        exact hne (by simp [hnil])
      rw [hq] at hnil
      have := List.length_pos.mpr hnil
      simp at this
      omega
    have hcons : s.messageQueue
        = s.dispatched.length :: (List.range s.nextId).drop (s.dispatched.length + 1) := by
      rw [hq, List.drop_eq_getElem_cons (by simpa using hdllt)]
      simp
    split
    case _ heq =>
      rw [heq] at hcons
      exact absurd hcons (by simp)
    case _ hh2 rest heq =>
      rw [heq] at hcons
      injection hcons with hh2d hrest
      subst hh2d
      subst hrest
      refine ⟨?_, ?_, ?_, ?_, ?_, ?_, ?_, ?_⟩ <;> dsimp only
      · simp only [List.length_append, List.length_singleton]
        rw [hd]
        simpa using (List.range_succ s.dispatched.length).symm
      · exact hf
      · simp only [List.length_append, List.length_singleton]
        omega
      · simp only [List.length_append, List.length_singleton]
        omega
      · simp only [List.length_append, List.length_singleton]
        rw [hh, hfd', List.range_succ,
            List.drop_append_of_le_length (by simp)]
        try simp
      · simp only [List.length_append, List.length_singleton]
      · simp only [List.length_append, List.length_singleton]
        omega
      · simp only [List.length_append, List.length_singleton]
        have hlt : s.fired.length < s.dispatched.length + 1 := by omega
        simp [hlt]

theorem mqInv_submit {s : MQState} (h : mqInv s) : mqInv (sendEmailContent s) := by
  obtain ⟨hd, hf, hfd, hdf, hh, hq, hdn, hp⟩ := h
  unfold sendEmailContent
  have hpush : mqInv { s with messageQueue := s.messageQueue ++ [s.nextId], nextId := s.nextId + 1 } := by
    refine ⟨?_, ?_, ?_, ?_, ?_, ?_, ?_, ?_⟩ <;> dsimp only
    · exact hd
    · exact hf
    · exact hfd
    · exact hdf
    · exact hh
    · rw [hq, List.range_succ s.nextId,
          List.drop_append_of_le_length (by simpa using hdn)]
    · omega
    · exact hp
  dsimp only
  split
  · exact hpush
  · exact mqInv_processNext hpush

theorem mqInv_deliver {s : MQState} (id : ℕ) (h : mqInv s) : mqInv (portOnMessage s id) := by
  obtain ⟨hd, hf, hfd, hdf, hh, hq, hdn, hp⟩ := h
  unfold portOnMessage
  split
  case isTrue hmem =>
    have hdeq : s.dispatched.length = s.fired.length + 1 := by
      rcases Nat.lt_or_ge s.fired.length s.dispatched.length with hlt | hge
      · omega
      · exfalso
        have hnilh : s.messageHandlers = [] := by
          rw [hh]
          exact List.drop_eq_nil_of_le (by simpa using hge)
        rw [hnilh] at hmem
        simp at hmem
    have hhando : s.messageHandlers = [s.fired.length] := by
      rw [hh, hdeq, List.range_succ,
          List.drop_append_of_le_length (by simp)]
      simp
    have hid : id = s.fired.length := by
      rw [hhando] at hmem
      simpa using hmem
    apply mqInv_processNext
    refine ⟨?_, ?_, ?_, ?_, ?_, ?_, ?_, ?_⟩ <;> dsimp only
    · exact hd
    · simp only [List.length_append, List.length_singleton]
      rw [hf, hid]
      simpa using (List.range_succ s.fired.length).symm
    · simp only [List.length_append, List.length_singleton]
      omega
    · simp only [List.length_append, List.length_singleton]
      omega
    · simp only [List.length_append, List.length_singleton]
      rw [hhando, hid, hdeq]
      simp
    · exact hq
    · exact hdn
    · simp only [List.length_append, List.length_singleton]
      simp [hdeq]
  case isFalse hmem =>
    exact ⟨hd, hf, hfd, hdf, hh, hq, hdn, hp⟩

theorem mqInv_reach {s : MQState} (h : MQSteadyReach s) : mqInv s := by
  induction h with
  | init => exact mqInv_init
  | submit _ ih => exact mqInv_submit ih
  | deliver id _ ih => exact mqInv_deliver id ih

/-- C6: within one client request queue, at most one request is outstanding
on the channel at any time (at most one registered, unfired completion
handler); requests are dispatched strictly in submission order (the dispatch
log is an initial segment `0, 1, ..., d-1` of the submission ids); handlers
fire in dispatch (= submission) order (the firing log is an initial segment
of the dispatch log); and a request is dispatched only after the handler of
every earlier dispatched request has fired (the dispatch log exceeds the
firing log by at most one entry). -/
theorem messageQueue_single_flight {s : MQState} (h : MQSteadyReach s) :
    s.messageHandlers.length ≤ 1 ∧
    s.dispatched = List.range s.dispatched.length ∧
    s.fired = List.range s.fired.length ∧
    s.fired.length ≤ s.dispatched.length ∧
    s.dispatched.length ≤ s.fired.length + 1 := by
  obtain ⟨hd, hf, hfd, hdf, hh, hq, hdn, hp⟩ := mqInv_reach h
  refine ⟨?_, hd, hf, hfd, hdf⟩
  rw [hh]
  simp only [List.length_drop, List.length_range]
  omega

/-- Witness for C6 at the concrete reachable state obtained by two
submissions followed by the delivery of the response to request 0. -/
theorem messageQueue_single_flight_witness :
    (portOnMessage (sendEmailContent (sendEmailContent mqInit)) 0).messageHandlers.length ≤ 1 ∧
    (portOnMessage (sendEmailContent (sendEmailContent mqInit)) 0).dispatched
      = List.range (portOnMessage (sendEmailContent (sendEmailContent mqInit)) 0).dispatched.length ∧
    (portOnMessage (sendEmailContent (sendEmailContent mqInit)) 0).fired
      = List.range (portOnMessage (sendEmailContent (sendEmailContent mqInit)) 0).fired.length ∧
    (portOnMessage (sendEmailContent (sendEmailContent mqInit)) 0).fired.length
      ≤ (portOnMessage (sendEmailContent (sendEmailContent mqInit)) 0).dispatched.length ∧
    (portOnMessage (sendEmailContent (sendEmailContent mqInit)) 0).dispatched.length
      ≤ (portOnMessage (sendEmailContent (sendEmailContent mqInit)) 0).fired.length + 1 :=
  messageQueue_single_flight
    (MQSteadyReach.deliver 0 (MQSteadyReach.submit (MQSteadyReach.submit MQSteadyReach.init)))

/-! ## Decimal-value lemmas for the confidence grammar -/

theorem digit_le_nine (c : Char) (h : c ≤ '9') : digitToNat c ≤ 9 := by
  have : c.toNat ≤ 57 := by simpa [Char.le_def, Char.toNat] using h
  simp [digitToNat]
  omega

theorem fracDigitsVal_nonneg (ds : List Char) : 0 ≤ fracDigitsVal ds := by
  induction ds with
  | nil => simp [fracDigitsVal]
  | cons c cs ih =>
    simp only [fracDigitsVal]
    have hdig : (0:ℚ) ≤ (digitToNat c : ℚ) := by positivity
    exact div_nonneg (by linarith) (by norm_num)

theorem fracDigitsVal_lt_one (ds : List Char) (hd : ∀ c ∈ ds, '0' ≤ c ∧ c ≤ '9') :
    fracDigitsVal ds < 1 := by
  induction ds with
  | nil => norm_num [fracDigitsVal]
  | cons c cs ih =>
    have hc : (digitToNat c : ℚ) ≤ 9 := by
      exact_mod_cast digit_le_nine c (hd c (by simp)).2
    have hcs : fracDigitsVal cs < 1 := ih (fun x hx => hd x (by simp [hx]))
    simp only [fracDigitsVal]
    rw [div_lt_one (by norm_num)]
    linarith

theorem decimalStringVal_one_dot_zero : decimalStringVal "1.0" = 1 := by
  have h1 : ("1.0").data = ['1', '.', '0'] := by decide
  have h2 : (decide ¬('1' = '.')) = true := by decide
  have h3 : (decide ¬('.' = '.')) = false := by decide
  simp [decimalStringVal, decimalCharsVal, List.dropWhile, List.takeWhile, h1, h2, h3,
    intDigitsVal, fracDigitsVal, digitToNat]

theorem decimalStringVal_zeroDot (ds : List Char) :
    decimalStringVal (String.mk ('0' :: '.' :: ds)) = fracDigitsVal ds := by
  simp [decimalStringVal, decimalCharsVal, List.dropWhile, List.takeWhile, intDigitsVal, digitToNat]

/-- C9 (counterexample): the claim that every confidence value producible by
the output grammar lies in [0,1) is false: the string `"1"` is derivable
from the grammar's `confidence` nonterminal and its numeric value is 1,
which is not strictly below 1. -/
theorem confidence_grammar_produces_one :
    ConfidenceString "1" ∧ ConfidenceStringOld "1" ∧ decimalStringVal "1" = 1 ∧
    ¬ (∀ s, ConfidenceString s → decimalStringVal s < 1) := by
  refine ⟨ConfidenceString.one, ConfidenceStringOld.one, by decide, fun h => ?_⟩
  have h1 := h "1" ConfidenceString.one
  rw [show decimalStringVal "1" = 1 from by decide] at h1
  exact lt_irrefl 1 h1

/-- C9 (amended): every confidence value producible by the `confidence` rule
of the fixed constrained-decoding output grammar lies in the closed
interval [0,1] (in both grammar snapshots); the bound 1 is attained, by
`confidence_grammar_produces_one`. -/
theorem confidence_grammar_range :
    (∀ s, ConfidenceString s → 0 ≤ decimalStringVal s ∧ decimalStringVal s ≤ 1) ∧
    (∀ s, ConfidenceStringOld s → 0 ≤ decimalStringVal s ∧ decimalStringVal s ≤ 1) := by
  constructor
  · intro s h
    cases h with
    | zero => refine ⟨by decide, by decide⟩
    | zeroDot ds h1 h2 hd =>
      rw [decimalStringVal_zeroDot]
      exact ⟨fracDigitsVal_nonneg ds, le_of_lt (fracDigitsVal_lt_one ds hd)⟩
    | one => refine ⟨by decide, by decide⟩
    | oneDotZero =>
      rw [decimalStringVal_one_dot_zero]
      norm_num
  · intro s h
    cases h with
    | zero => refine ⟨by decide, by decide⟩
    | zeroDot ds h1 hd =>
      rw [decimalStringVal_zeroDot]
      exact ⟨fracDigitsVal_nonneg ds, le_of_lt (fracDigitsVal_lt_one ds hd)⟩
    | one => refine ⟨by decide, by decide⟩
    | oneDotZero =>
      rw [decimalStringVal_one_dot_zero]
      norm_num

/-- Witness for C9 (amended) at the derivable confidence string `"0.99"`. -/
theorem confidence_grammar_range_witness :
    0 ≤ decimalStringVal "0.99" ∧ decimalStringVal "0.99" ≤ 1 :=
  confidence_grammar_range.1 "0.99"
    (ConfidenceString.zeroDot ['9', '9'] (by decide) (by decide) (by decide))

/-! ## Model sizing (`getOptimalModelConfig`) -/

theorem constrained_ctx_props (c : ℕ) :
    256 ∣ max 2048 (min (getMemoryAlignedValue c) 9984) ∧
    2048 ≤ max 2048 (min (getMemoryAlignedValue c) 9984) ∧
    max 2048 (min (getMemoryAlignedValue c) 9984) ≤ 9984 := by
  refine ⟨?_, le_max_left _ _, max_le (by norm_num) (min_le_right _ _)⟩
  rcases le_total (getMemoryAlignedValue c) 9984 with h | h
  · rw [min_eq_left h]
    rcases le_total 2048 (getMemoryAlignedValue c) with h2 | h2
    · rw [max_eq_right h2]
      exact dvd_mul_left 256 _
    · rw [max_eq_left h2]
      decide
  · rw [min_eq_right h]
    decide

/-- C10 (amended): for every system-info response, writing `A` for the
effective available memory after the JavaScript falsy-defaulting
`systemInfo?.availableRAMMB || 4096` (a missing or zero report becomes
4096 MB), `getOptimalModelConfig` reports insufficient resources — carrying
the fixed requirement 3712 = 2989 + 211 + 512 MB and `A` — exactly when
`A < 3712`, and otherwise yields a configuration whose context length is a
multiple of 256 in [2048, 9984], with at least 2 threads and batch size
256. -/
theorem getOptimalModelConfig_sizing :
    ∀ a t hw cp : Option ℕ,
      (match getOptimalModelConfig a t hw cp with
       | .error rep =>
           rep.requiredRAMMB = 3712 ∧ rep.availableRAMMB = jsOrDefault a 4096 ∧
           jsOrDefault a 4096 < 3712
       | .ok cfg =>
           3712 ≤ jsOrDefault a 4096 ∧ 256 ∣ cfg.n_ctx ∧ 2048 ≤ cfg.n_ctx ∧
           cfg.n_ctx ≤ 9984 ∧ 2 ≤ cfg.n_threads ∧ cfg.n_batch = 256) := by
  intro a t hw cp
  have h3712 : totalRequiredMB = 3712 := rfl
  by_cases h : jsOrDefault a 4096 < totalRequiredMB
  · simp only [getOptimalModelConfig, h, if_true]
    exact ⟨h3712, trivial, h3712 ▸ h⟩
  · simp only [getOptimalModelConfig, h, if_false]
    have hc := constrained_ctx_props
      ((jsOrDefault a 4096 - safetyMarginMB - baseModelSizeMB) * 10000 / 978)
    exact ⟨h3712 ▸ le_of_not_lt h, hc.1, hc.2.1, hc.2.2, le_max_left _ _, trivial⟩

/-- C10 (counterexample): the claim ties the insufficient-resources report
to "available memory below 3712 MB", but a system-info response reporting
0 MB available is falsy in JavaScript and is replaced by the 4096 MB
default, so sizing yields a configuration instead of reporting
insufficient resources. -/
theorem getOptimalModelConfig_zero_available :
    (0 : ℕ) < totalRequiredMB ∧
    getOptimalModelConfig (some 0) none none none =
      .ok { modelName := "gemma-3-4b-it-qat-q4_0-gguf"
            n_threads := 3, n_ctx := 5888, n_batch := 256 } :=
  ⟨by decide, by rfl⟩

/-! ## The context-budget gate -/

/-- C2: the context-budget short-circuit of `attemptInference` (newer
snapshot) fires exactly when `contextSize - tokensToKeepForSystemPrompt` is
at most 50 — a condition independent of the prompt's token count — so a
request whose prompt token count exceeds
contextWindow − reservedSystemTokens − 50 is still sent to the engine's
completion whenever the window minus the reservation exceeds 50: with
`n_ctx = 4096`, 100 reserved tokens, and a 100000-token prompt (far beyond
4096 − 100 − 50 = 3946), the gate proceeds to `createCompletion` instead of
returning the "too long" unknown_threat result. -/
theorem attemptInferenceGate_ignores_prompt_tokens :
    (∀ inp : InferenceGateInput,
        attemptInferenceGate inp = .tooLong tooLongResult ↔
          (jsOrDefault inp.n_ctx? 4096 : ℤ) - inp.tokensToKeepForSystemPrompt ≤ 50) ∧
    4096 - 100 - 50 < 100000 ∧
    attemptInferenceGate
        { n_ctx? := some 4096, tokensToKeepForSystemPrompt := 100, promptTokens := 100000 }
      = .invoke 100000 := by
  refine ⟨?_, by norm_num, by decide⟩
  intro inp
  by_cases h : (jsOrDefault inp.n_ctx? 4096 : ℤ) - inp.tokensToKeepForSystemPrompt ≤ 50
  · simp [attemptInferenceGate, h]
  · simp [attemptInferenceGate, h]

/-! ## Background orchestrator invariants (single-flight snapshot) -/

theorem bgInv_init : bgInv bgInit := by
  simp [bgInv, bgInit]

theorem bgInv_processQueueFuel (n : ℕ) {s : BGState} (h : bgInv s) :
    bgInv (processQueueFuel n s) := by
  induction n generalizing s with
  | zero => exact h
  | succ n ih =>
    obtain ⟨h1, h2, h3⟩ := h
    unfold processQueueFuel
    dsimp only
    split
    · exact ⟨h1, h2, h3⟩
    · split
      · exact ⟨h1, h2, h3⟩
      case isFalse hproc =>
        have hpf : s.isProcessing = false := by simpa using hproc
        have hempty : s.inFlight = [] := h1 hpf
        split
        · exact ⟨h1, h2, h3⟩
        case _ r rest heq =>
          split
          · apply ih
            refine ⟨?_, ?_, ?_⟩ <;> dsimp only
            · intro _
              exact hempty
            · rw [hpf]
              intro hcontra
              exact absurd hcontra (by simp)
            · simp only [List.length_append, List.length_singleton]
              rw [hempty] at h3
              simp at h3
              rw [hempty]
              simp
              omega
          · split
            · refine ⟨?_, ?_, ?_⟩ <;> dsimp only
              · intro hcontra
                exact absurd hcontra (by simp)
              · intro _
                exact ⟨_, rfl⟩
              · rw [hempty] at h3
                simp at h3
                simp
                omega
            · split
              · refine ⟨?_, ?_, ?_⟩ <;> dsimp only
                · intro hcontra
                  exact absurd hcontra (by simp)
                · intro _
                  exact ⟨_, rfl⟩
                · rw [hempty] at h3
                  simp at h3
                  simp
                  omega
              · refine ⟨?_, ?_, ?_⟩ <;> dsimp only
                · intro hcontra
                  exact absurd hcontra (by simp)
                · intro _
                  exact ⟨_, rfl⟩
                · rw [hempty] at h3
                  simp at h3
                  simp
                  omega

theorem bgInv_processQueue {s : BGState} (h : bgInv s) : bgInv (processQueue s) :=
  bgInv_processQueueFuel _ h

theorem bgInv_completeRequest {s : BGState} (resp : ResponseMessage)
    (h : bgInv s) (hone : s.inFlight.length = 1) : bgInv (completeRequest s resp) := by
  obtain ⟨h1, h2, h3⟩ := h
  apply bgInv_processQueue
  refine ⟨?_, ?_, ?_⟩ <;> dsimp only
  · intro _
    rfl
  · intro hcontra
    exact absurd hcontra (by simp)
  · simp only [List.length_append, List.length_singleton, List.length_nil]
    omega

theorem bgInv_cleanup {s : BGState} (h : bgInv s) : bgInv (cleanupOffscreenDocument s) := by
  obtain ⟨h1, h2, h3⟩ := h
  unfold cleanupOffscreenDocument
  split
  · exact ⟨h1, h2, h3⟩
  · exact ⟨h1, h2, h3⟩

theorem bgInv_continueAfterCreate {s : BGState} (r : ℕ)
    (h : bgInv s) (hone : s.inFlight.length = 1) (hproc : s.isProcessing = true) :
    bgInv (continueAfterCreate s r) := by
  obtain ⟨h1, h2, h3⟩ := h
  unfold continueAfterCreate
  split
  · refine ⟨?_, ?_, ?_⟩ <;> dsimp only
    · rw [hproc]
      intro hcontra
      exact absurd hcontra (by simp)
    · intro _
      exact ⟨_, rfl⟩
    · simp only [List.length_singleton]
      omega
  · split
    · exact bgInv_completeRequest _ ⟨h1, h2, h3⟩ hone
    · refine ⟨?_, ?_, ?_⟩ <;> dsimp only
      · rw [hproc]
        intro hcontra
        exact absurd hcontra (by simp)
      · intro _
        exact ⟨_, rfl⟩
      · simp only [List.length_singleton]
        omega

theorem bgInv_step (e : BGEvent) {s : BGState} (h : bgInv s) : bgInv (bgStep e s) := by
  obtain ⟨h1, h2, h3⟩ := h
  cases e with
  | submit r =>
    simp only [bgStep]
    exact bgInv_processQueue ⟨h1, h2, h3⟩
  | createDone =>
    simp only [bgStep]
    split
    case _ r heq =>
      have hproc : s.isProcessing = true := by
        cases hx : s.isProcessing with
        | false =>
          rw [h1 hx] at heq
          exact absurd heq (by simp)
        | true => rfl
      apply bgInv_continueAfterCreate
      · exact ⟨fun hf => h1 hf, fun ht => h2 ht, h3⟩
      · rw [heq]
        rfl
      · exact hproc
    case _ => exact ⟨h1, h2, h3⟩
  | createFail e =>
    simp only [bgStep]
    split
    case _ r heq =>
      apply bgInv_completeRequest _ ⟨h1, h2, h3⟩
      rw [heq]
      rfl
    case _ => exact ⟨h1, h2, h3⟩
  | wakeModelWait =>
    simp only [bgStep]
    split
    case _ r heq =>
      have hproc : s.isProcessing = true := by
        cases hx : s.isProcessing with
        | false =>
          rw [h1 hx] at heq
          exact absurd heq (by simp)
        | true => rfl
      split
      · split
        · apply bgInv_completeRequest _ ⟨h1, h2, h3⟩
          rw [heq]
          rfl
        · refine ⟨?_, ?_, ?_⟩ <;> dsimp only
          · rw [hproc]
            intro hcontra
            exact absurd hcontra (by simp)
          · intro _
            exact ⟨_, rfl⟩
          · simp only [List.length_singleton]
            rw [heq] at h3
            simpa using h3
      · exact ⟨h1, h2, h3⟩
    case _ => exact ⟨h1, h2, h3⟩
  | inferDone res =>
    simp only [bgStep]
    split
    case _ r heq =>
      split
      · apply bgInv_completeRequest _ ⟨h1, h2, h3⟩
        rw [heq]
        rfl
      · apply bgInv_completeRequest _ ⟨h1, h2, h3⟩
        rw [heq]
        rfl
    case _ => exact ⟨h1, h2, h3⟩
  | modelLoadedMsg =>
    simp only [bgStep]
    exact bgInv_processQueue ⟨h1, h2, h3⟩
  | modelLoadErrorMsg =>
    simp only [bgStep]
    exact ⟨h1, h2, h3⟩
  | insufficientResourcesMsg req avail =>
    simp only [bgStep]
    have hq : bgInv (processQueue
        { s with hasInsufficientResources := true
                 requiredRAMMB := some req
                 availableRAMMB := some avail
                 isModelLoaded := false }) :=
      bgInv_processQueue ⟨h1, h2, h3⟩
    obtain ⟨g1, g2, g3⟩ := bgInv_cleanup hq
    exact ⟨g1, g2, g3⟩
  | pollTick a =>
    simp only [bgStep]
    split
    · split
      · dsimp only
        split
        · exact ⟨h1, h2, h3⟩
        · exact bgInv_processQueue ⟨h1, h2, h3⟩
      · exact ⟨h1, h2, h3⟩
    · exact ⟨h1, h2, h3⟩
  | cleanupFire =>
    simp only [bgStep]
    split
    · exact bgInv_cleanup ⟨h1, h2, h3⟩
    · exact ⟨h1, h2, h3⟩

theorem bgInv_reach {s : BGState} (h : BGReachable s) : bgInv s := by
  induction h with
  | init => exact bgInv_init
  | step e _ ih => exact bgInv_step e ih

/-! ## Concurrency bounds of the two orchestrator snapshots -/

theorem qaBound_admitLoop (fuel : ℕ) {s : QAState}
    (h : s.activeRequestsCount = s.inFlightA.length ∧
         s.activeRequestsCount ≤ MAX_CONCURRENT_REQUESTS) :
    (admitLoopA fuel s).activeRequestsCount = (admitLoopA fuel s).inFlightA.length ∧
    (admitLoopA fuel s).activeRequestsCount ≤ MAX_CONCURRENT_REQUESTS := by
  induction fuel generalizing s with
  | zero => exact h
  | succ n ih =>
    unfold admitLoopA
    split
    case isTrue hlt =>
      split
      · exact h
      case _ r rest heq =>
        apply ih
        refine ⟨?_, ?_⟩ <;> dsimp only
        · simp [h.1]
        · omega
    case isFalse => exact h

theorem qaBound_reach {s : QAState} (h : QAReachable s) :
    s.activeRequestsCount = s.inFlightA.length ∧
    s.activeRequestsCount ≤ MAX_CONCURRENT_REQUESTS := by
  induction h with
  | init => simp [qaInit]
  | submit r _ ih =>
    apply qaBound_admitLoop
    exact ⟨ih.1, ih.2⟩
  | complete r _ ih =>
    unfold completeA
    split
    case isTrue hmem =>
      apply qaBound_admitLoop
      refine ⟨?_, ?_⟩ <;> dsimp only
      · rw [List.length_erase_of_mem hmem, ih.1]
      · omega
    case isFalse => exact ih

/-- C1 (counterexample): the claim's concurrency bound of 1 fails for the
`MAX_CONCURRENT_REQUESTS` snapshot of `processQueue`: submitting two
requests from the initial state reaches a state of its processing loop with
both requests dequeued and forwarded but not completed. -/
theorem max_concurrent_two_in_flight :
    QAReachable (handleMessageA 1 (handleMessageA 0 qaInit)) ∧
    (handleMessageA 1 (handleMessageA 0 qaInit)).inFlightA.length = 2 ∧
    ¬ (∀ s, QAReachable s → s.inFlightA.length ≤ 1) := by
  refine ⟨QAReachable.submit 1 (QAReachable.submit 0 QAReachable.init), by decide,
    fun hall => ?_⟩
  have hle := hall _ (QAReachable.submit 1 (QAReachable.submit 0 QAReachable.init))
  rw [show (handleMessageA 1 (handleMessageA 0 qaInit)).inFlightA.length = 2 from by decide]
    at hle
  omega

/-- C1 (amended): in the single-flight snapshot of the orchestrator
(`processQueue` guarded by `isProcessing`), every reachable state has at
most one dequeued-and-uncompleted request, so queued requests are admitted
strictly one at a time; in the `MAX_CONCURRENT_REQUESTS` snapshot the number
of requests in flight is instead bounded by `MAX_CONCURRENT_REQUESTS = 3`,
and the `activeRequestsCount` variable counts exactly the in-flight
requests. -/
theorem orchestrator_concurrency_bounds :
    (∀ s, BGReachable s → s.inFlight.length ≤ 1) ∧
    MAX_CONCURRENT_REQUESTS = 3 ∧
    (∀ s, QAReachable s → s.inFlightA.length ≤ MAX_CONCURRENT_REQUESTS ∧
        s.activeRequestsCount = s.inFlightA.length) := by
  refine ⟨?_, rfl, ?_⟩
  · intro s h
    obtain ⟨h1, h2, h3⟩ := bgInv_reach h
    cases hx : s.isProcessing with
    | false =>
      rw [h1 hx]
      simp
    | true =>
      obtain ⟨p, hp⟩ := h2 hx
      rw [hp]
      simp
  · intro s h
    obtain ⟨he, hb⟩ := qaBound_reach h
    exact ⟨he ▸ hb, he⟩

/-- Witness for C1 (amended) at the reachable single-flight state obtained
by one submission, and the reachable `MAX_CONCURRENT_REQUESTS` state
obtained by two submissions. -/
theorem orchestrator_concurrency_bounds_witness :
    (bgStep (.submit 5) bgInit).inFlight.length ≤ 1 ∧
    ((handleMessageA 1 (handleMessageA 0 qaInit)).inFlightA.length ≤ MAX_CONCURRENT_REQUESTS ∧
      (handleMessageA 1 (handleMessageA 0 qaInit)).activeRequestsCount
        = (handleMessageA 1 (handleMessageA 0 qaInit)).inFlightA.length) :=
  ⟨orchestrator_concurrency_bounds.1 _ (BGReachable.step _ BGReachable.init),
   orchestrator_concurrency_bounds.2.2 _
     (QAReachable.submit 1 (QAReachable.submit 0 QAReachable.init))⟩

/-! ## Queue-drain behavior under the insufficient-resources condition -/

theorem processQueueFuel_fixed_fields (n : ℕ) (s : BGState) :
    (processQueueFuel n s).hasInsufficientResources = s.hasInsufficientResources ∧
    (processQueueFuel n s).memoryPollingActive = s.memoryPollingActive ∧
    (processQueueFuel n s).isOffscreenDocumentReady = s.isOffscreenDocumentReady ∧
    (processQueueFuel n s).isModelLoaded = s.isModelLoaded ∧
    (processQueueFuel n s).workerDestroyCount = s.workerDestroyCount ∧
    (processQueueFuel n s).requiredRAMMB = s.requiredRAMMB := by
  induction n generalizing s with
  | zero => exact ⟨rfl, rfl, rfl, rfl, rfl, rfl⟩
  | succ n ih =>
    unfold processQueueFuel
    dsimp only
    split
    · exact ⟨rfl, rfl, rfl, rfl, rfl, rfl⟩
    · split
      · exact ⟨rfl, rfl, rfl, rfl, rfl, rfl⟩
      · split
        · exact ⟨rfl, rfl, rfl, rfl, rfl, rfl⟩
        case _ r rest heq =>
          split
          · exact ih _
          · split
            · exact ⟨rfl, rfl, rfl, rfl, rfl, rfl⟩
            · split
              · exact ⟨rfl, rfl, rfl, rfl, rfl, rfl⟩
              · exact ⟨rfl, rfl, rfl, rfl, rfl, rfl⟩

theorem processQueueFuel_drain (fuel : ℕ) {s : BGState}
    (hflag : s.hasInsufficientResources = true) (hproc : s.isProcessing = false)
    (hfuel : s.requestsQueue.length + 1 ≤ fuel) :
    (processQueueFuel fuel s).responses
        = s.responses ++ s.requestsQueue.map sendInsufficientResourcesError ∧
    (processQueueFuel fuel s).requestsQueue = [] ∧
    (processQueueFuel fuel s).createAttempts = s.createAttempts ∧
    (processQueueFuel fuel s).dequeueCount = s.dequeueCount + s.requestsQueue.length ∧
    (processQueueFuel fuel s).cleanupTimerArmed = true ∧
    (processQueueFuel fuel s).isProcessing = s.isProcessing ∧
    (processQueueFuel fuel s).inFlight = s.inFlight := by
  induction fuel generalizing s with
  | zero => omega
  | succ n ih =>
    unfold processQueueFuel
    dsimp only
    cases hq : s.requestsQueue with
    | nil =>
      rw [if_pos (by simp [hq])]
      simp [hq]
    | cons r rest =>
      rw [if_neg (by simp [hq]), if_neg (by simp [hproc])]
      dsimp only
      rw [if_pos hflag]
      have hrec := @ih
        { s with requestsQueue := rest
                 cleanupTimerArmed := false
                 responses := s.responses ++ [sendInsufficientResourcesError r]
                 dequeueCount := s.dequeueCount + 1 }
        hflag hproc
        (by
          dsimp only
          rw [hq] at hfuel
          simp at hfuel
          omega)
      refine ⟨?_, hrec.2.1, hrec.2.2.1, ?_, hrec.2.2.2.2.1, hrec.2.2.2.2.2.1,
        hrec.2.2.2.2.2.2⟩
      · rw [hrec.1]
        simp
      · rw [hrec.2.2.2.1]
        dsimp only
        simp [hq]
        omega

theorem cleanup_createAttempts (s : BGState) :
    (cleanupOffscreenDocument s).createAttempts = s.createAttempts ∧
    (cleanupOffscreenDocument s).responses = s.responses := by
  unfold cleanupOffscreenDocument
  split
  · exact ⟨rfl, rfl⟩
  · exact ⟨rfl, rfl⟩

theorem processQueue_fixed_fields (s : BGState) :
    (processQueue s).hasInsufficientResources = s.hasInsufficientResources ∧
    (processQueue s).memoryPollingActive = s.memoryPollingActive ∧
    (processQueue s).isOffscreenDocumentReady = s.isOffscreenDocumentReady ∧
    (processQueue s).isModelLoaded = s.isModelLoaded ∧
    (processQueue s).workerDestroyCount = s.workerDestroyCount ∧
    (processQueue s).requiredRAMMB = s.requiredRAMMB :=
  processQueueFuel_fixed_fields _ s

theorem processQueueFuel_createAttempts_flag (n : ℕ) {s : BGState}
    (hflag : s.hasInsufficientResources = true) :
    (processQueueFuel n s).createAttempts = s.createAttempts := by
  induction n generalizing s with
  | zero => rfl
  | succ n ih =>
    unfold processQueueFuel
    dsimp only
    cases hq : s.requestsQueue with
    | nil =>
      rw [if_pos (by simp [hq])]
    | cons r rest =>
      rw [if_neg (by simp [hq])]
      by_cases hpr : s.isProcessing = true
      · rw [if_pos hpr]
      · rw [if_neg hpr]
        dsimp only
        rw [if_pos hflag]
        exact ih hflag

theorem bgStep_no_create_while_flag (e : BGEvent) {s : BGState}
    (hflag : s.hasInsufficientResources = true)
    (hflag' : (bgStep e s).hasInsufficientResources = true) :
    (bgStep e s).createAttempts = s.createAttempts := by
  cases e with
  | submit r =>
    simp only [bgStep]
    exact processQueueFuel_createAttempts_flag _ hflag
  | createDone =>
    simp only [bgStep]
    split
    case _ r heq =>
      unfold continueAfterCreate
      rw [if_neg (by
        dsimp only
        intro hcontra
        rw [hflag] at hcontra
        exact absurd hcontra.2 (by simp))]
      rw [if_pos hflag]
      exact processQueueFuel_createAttempts_flag _ hflag
    case _ => rfl
  | createFail e =>
    simp only [bgStep]
    split
    case _ r heq => exact processQueueFuel_createAttempts_flag _ hflag
    case _ => rfl
  | wakeModelWait =>
    simp only [bgStep]
    split
    case _ r heq =>
      rw [if_pos (Or.inr hflag), if_pos hflag]
      exact processQueueFuel_createAttempts_flag _ hflag
    case _ => rfl
  | inferDone res =>
    simp only [bgStep]
    split
    case _ r heq =>
      split
      · exact processQueueFuel_createAttempts_flag _ hflag
      · exact processQueueFuel_createAttempts_flag _ hflag
    case _ => rfl
  | modelLoadedMsg =>
    simp only [bgStep] at hflag'
    rw [(processQueue_fixed_fields _).1] at hflag'
    simp at hflag'
  | modelLoadErrorMsg => rfl
  | insufficientResourcesMsg req avail =>
    simp only [bgStep]
    rw [(cleanup_createAttempts _).1]
    exact processQueueFuel_createAttempts_flag _ rfl
  | pollTick a =>
    simp only [bgStep]
    by_cases hpa : s.memoryPollingActive = true
    · rw [if_pos hpa]
      by_cases hcond : (match s.requiredRAMMB with
          | none => true
          | some required => decide (required ≤ a)) = true
      · exfalso
        simp only [bgStep] at hflag'
        rw [if_pos hpa, if_pos hcond] at hflag'
        dsimp only at hflag'
        by_cases hqe : s.requestsQueue.isEmpty = true
        · rw [if_pos hqe] at hflag'
          simp at hflag'
        · rw [if_neg hqe] at hflag'
          rw [(processQueue_fixed_fields _).1] at hflag'
          simp at hflag'
      · rw [if_neg hcond]
    · rw [if_neg hpa]
  | cleanupFire =>
    simp only [bgStep]
    split
    · exact (cleanup_createAttempts _).1
    · rfl

/-- C3: while the insufficient-resources condition is set, a submission
drains the whole queue: every queued and the newly submitted request
immediately receives the synthesized terminal response and the queue
empties, with no creation attempt and the condition still set; the
synthesized response has responseType error, type unknown_threat,
confidence 0 and a human-readable reason; and no event that leaves the
condition set ever performs a worker-creation attempt. -/
theorem insufficient_resources_rejects_all :
    (∀ s r, s.hasInsufficientResources = true → s.isProcessing = false →
      (bgStep (.submit r) s).responses
          = s.responses ++ (s.requestsQueue ++ [r]).map sendInsufficientResourcesError ∧
      (bgStep (.submit r) s).requestsQueue = [] ∧
      (bgStep (.submit r) s).createAttempts = s.createAttempts ∧
      (bgStep (.submit r) s).hasInsufficientResources = true ∧
      (bgStep (.submit r) s).workerDestroyCount = s.workerDestroyCount) ∧
    (∀ r, (sendInsufficientResourcesError r).responseType = RespKind.error ∧
      (sendInsufficientResourcesError r).type = ThreatType.unknown_threat ∧
      (sendInsufficientResourcesError r).confidence = 0 ∧
      (sendInsufficientResourcesError r).brief_analysis
        = "Cannot process request due to insufficient system resources") ∧
    (∀ e s, s.hasInsufficientResources = true →
      (bgStep e s).hasInsufficientResources = true →
      (bgStep e s).createAttempts = s.createAttempts) := by
  refine ⟨?_, ?_, ?_⟩
  · intro s r hflag hproc
    simp only [bgStep]
    have hd := @processQueueFuel_drain ((s.requestsQueue ++ [r]).length + 1)
      { s with requestsQueue := s.requestsQueue ++ [r] } hflag hproc (by simp)
    have hf := processQueueFuel_fixed_fields ((s.requestsQueue ++ [r]).length + 1)
      { s with requestsQueue := s.requestsQueue ++ [r] }
    exact ⟨hd.1, hd.2.1, hd.2.2.1, hf.1.trans hflag, hf.2.2.2.2.1⟩
  · intro r
    exact ⟨rfl, rfl, rfl, rfl⟩
  · intro e s hflag hflag'
    exact bgStep_no_create_while_flag e hflag hflag'

/-- Witness for C3 at the concrete state with the condition set, two queued
requests and a third submission. -/
theorem insufficient_resources_rejects_all_witness :
    (bgStep (.submit 7)
        { bgInit with hasInsufficientResources := true, requestsQueue := [5, 6] }).responses
      = ({ bgInit with hasInsufficientResources := true, requestsQueue := [5, 6] } :
          BGState).responses
        ++ ((({ bgInit with hasInsufficientResources := true, requestsQueue := [5, 6] } :
          BGState).requestsQueue ++ [7]).map sendInsufficientResourcesError) ∧
    (bgStep (.submit 7)
        { bgInit with hasInsufficientResources := true, requestsQueue := [5, 6] }).requestsQueue
      = [] ∧
    (bgStep (.submit 7)
        { bgInit with hasInsufficientResources := true, requestsQueue := [5, 6] }).createAttempts
      = ({ bgInit with hasInsufficientResources := true, requestsQueue := [5, 6] } :
          BGState).createAttempts ∧
    (bgStep (.submit 7)
        { bgInit with hasInsufficientResources := true,
                      requestsQueue := [5, 6] }).hasInsufficientResources = true ∧
    (bgStep (.submit 7)
        { bgInit with hasInsufficientResources := true, requestsQueue := [5, 6] }).workerDestroyCount
      = ({ bgInit with hasInsufficientResources := true, requestsQueue := [5, 6] } :
          BGState).workerDestroyCount :=
  insufficient_resources_rejects_all.1
    { bgInit with hasInsufficientResources := true, requestsQueue := [5, 6] } 7 rfl rfl

theorem processQueue_empty_arms {s : BGState} (hq : s.requestsQueue = []) :
    (processQueue s).cleanupTimerArmed = true := by
  unfold processQueue processQueueFuel
  dsimp only
  rw [if_pos (by simp [hq])]

/-- C4: the memory-recovery loop samples on the fixed 5-second interval;
a polling tick whose probed available memory meets the previously reported
requirement clears the insufficient-resources condition and stops the
polling; and the next submission after such a tick (with the worker torn
down and the queue idle) proceeds to a worker-creation attempt with no
immediate error response. -/
theorem memory_polling_recovery :
    MEMORY_POLLING_INTERVAL = 5000 ∧
    (∀ s R a, s.memoryPollingActive = true → s.requiredRAMMB = some R → R ≤ a →
      (bgStep (.pollTick a) s).hasInsufficientResources = false ∧
      (bgStep (.pollTick a) s).memoryPollingActive = false) ∧
    (∀ s R a r, s.memoryPollingActive = true → s.requiredRAMMB = some R → R ≤ a →
      s.isProcessing = false → s.isOffscreenDocumentReady = false → s.requestsQueue = [] →
      (bgStep (.submit r) (bgStep (.pollTick a) s)).createAttempts = s.createAttempts + 1 ∧
      (bgStep (.submit r) (bgStep (.pollTick a) s)).responses = s.responses ∧
      (bgStep (.submit r) (bgStep (.pollTick a) s)).inFlight = [(r, ReqPhase.creating)]) := by
  have hclear : ∀ (s : BGState) (R a : ℕ), s.memoryPollingActive = true →
      s.requiredRAMMB = some R → R ≤ a →
      (bgStep (.pollTick a) s).hasInsufficientResources = false ∧
      (bgStep (.pollTick a) s).memoryPollingActive = false := by
    intro s R a hpoll hreq hRa
    simp only [bgStep]
    rw [if_pos hpoll, if_pos (by rw [hreq]; simpa using hRa)]
    dsimp only
    by_cases hqe : s.requestsQueue.isEmpty = true
    · rw [if_pos hqe]
      exact ⟨rfl, rfl⟩
    · rw [if_neg hqe]
      exact ⟨(processQueue_fixed_fields _).1, (processQueue_fixed_fields _).2.1⟩
  refine ⟨rfl, hclear, ?_⟩
  intro s R a r hpoll hreq hRa hproc hready hq
  have h1 : bgStep (.pollTick a) s
      = { s with hasInsufficientResources := false, memoryPollingActive := false } := by
    simp only [bgStep]
    rw [if_pos hpoll, if_pos (by rw [hreq]; simpa using hRa)]
    dsimp only
    rw [if_pos (by simp [hq])]
  rw [h1]
  simp only [bgStep]
  unfold processQueue processQueueFuel
  dsimp only
  rw [hq]
  simp only [List.nil_append]
  rw [if_neg (by simp)]
  rw [if_neg (by simp [hproc])]
  rw [if_neg (by simp), if_pos (by simp [hready])]
  exact ⟨rfl, rfl, rfl⟩

/-- Witness for C4 at the concrete torn-down state produced by an
insufficient-resources report of 3500 MB required, polled with 4000 MB
available, then submitted to. -/
theorem memory_polling_recovery_witness :
    (bgStep (.pollTick 4000)
        { bgInit with hasInsufficientResources := true, memoryPollingActive := true,
                      requiredRAMMB := some 3500 }).hasInsufficientResources = false ∧
    (bgStep (.pollTick 4000)
        { bgInit with hasInsufficientResources := true, memoryPollingActive := true,
                      requiredRAMMB := some 3500 }).memoryPollingActive = false :=
  memory_polling_recovery.2.1
    { bgInit with hasInsufficientResources := true, memoryPollingActive := true,
                  requiredRAMMB := some 3500 }
    3500 4000 rfl rfl (by norm_num)

/-- C5: the idle-teardown delay is 60 s; completing the in-flight request
with an empty queue arms the teardown timer (as does any `processQueue`
pass over an empty queue); an armed timer that fires while the offscreen
document exists destroys it exactly once — the timer is consumed, and a
second fire changes nothing; and a new admission cancels the pending
teardown without destroying the worker, leaving it loaded. -/
theorem idle_teardown_behavior :
    CLEANUP_DELAY = 60000 ∧
    (∀ s, s.requestsQueue = [] → (processQueue s).cleanupTimerArmed = true) ∧
    (∀ s r res, s.inFlight = [(r, ReqPhase.inferring)] → s.requestsQueue = [] →
        (bgStep (.inferDone res) s).cleanupTimerArmed = true) ∧
    (∀ s, s.cleanupTimerArmed = true → s.isOffscreenDocumentReady = true →
        (bgStep .cleanupFire s).workerDestroyCount = s.workerDestroyCount + 1 ∧
        (bgStep .cleanupFire s).cleanupTimerArmed = false ∧
        (bgStep .cleanupFire s).isOffscreenDocumentReady = false ∧
        (bgStep .cleanupFire (bgStep .cleanupFire s)).workerDestroyCount
          = (bgStep .cleanupFire s).workerDestroyCount) ∧
    (∀ s r, s.hasInsufficientResources = false →
        (bgStep (.submit r) s).cleanupTimerArmed = false ∧
        (bgStep (.submit r) s).workerDestroyCount = s.workerDestroyCount ∧
        (bgStep (.submit r) s).isOffscreenDocumentReady = s.isOffscreenDocumentReady) := by
  refine ⟨rfl, fun s hq => processQueue_empty_arms hq, ?_, ?_, ?_⟩
  · intro s r res hin hq
    simp only [bgStep]
    rw [hin]
    dsimp only
    cases res with
    | ok result => exact processQueue_empty_arms hq
    | error e => exact processQueue_empty_arms hq
  · intro s harmed hready
    simp only [bgStep]
    rw [if_pos harmed]
    unfold cleanupOffscreenDocument
    rw [if_pos (by simpa using hready)]
    refine ⟨rfl, rfl, rfl, ?_⟩
    rw [if_neg (by simp)]
  · intro s r hflag
    simp only [bgStep]
    unfold processQueue processQueueFuel
    dsimp only
    rw [if_neg (by simp)]
    by_cases hpr : s.isProcessing = true
    · rw [if_pos hpr]
      exact ⟨rfl, rfl, rfl⟩
    · rw [if_neg hpr]
      cases hq : s.requestsQueue with
      | nil =>
        simp only [List.nil_append]
        rw [if_neg (by simp [hflag])]
        by_cases hready : s.isOffscreenDocumentReady = false
        · rw [if_pos hready]
          exact ⟨rfl, rfl, rfl⟩
        · rw [if_neg hready]
          by_cases hml : s.isModelLoaded = false
          · rw [if_pos hml]
            exact ⟨rfl, rfl, rfl⟩
          · rw [if_neg hml]
            exact ⟨rfl, rfl, rfl⟩
      | cons q qs =>
        simp only [List.cons_append]
        rw [if_neg (by simp [hflag])]
        by_cases hready : s.isOffscreenDocumentReady = false
        · rw [if_pos hready]
          exact ⟨rfl, rfl, rfl⟩
        · rw [if_neg hready]
          by_cases hml : s.isModelLoaded = false
          · rw [if_pos hml]
            exact ⟨rfl, rfl, rfl⟩
          · rw [if_neg hml]
            exact ⟨rfl, rfl, rfl⟩

/-- Witness for C5: completing the in-flight request of a concrete state
with an empty queue arms the teardown; firing it on an armed, loaded state
destroys the worker once; a fresh admission cancels a pending teardown. -/
theorem idle_teardown_behavior_witness :
    (bgStep (.inferDone (Except.error "boom"))
        { bgInit with isProcessing := true,
                      inFlight := [(4, ReqPhase.inferring)] }).cleanupTimerArmed = true ∧
    ((bgStep .cleanupFire
        { bgInit with cleanupTimerArmed := true,
                      isOffscreenDocumentReady := true }).workerDestroyCount
      = ({ bgInit with cleanupTimerArmed := true, isOffscreenDocumentReady := true } :
          BGState).workerDestroyCount + 1) ∧
    (bgStep (.submit 9)
        { bgInit with cleanupTimerArmed := true }).cleanupTimerArmed = false :=
  ⟨idle_teardown_behavior.2.2.1
      { bgInit with isProcessing := true, inFlight := [(4, ReqPhase.inferring)] }
      4 (Except.error "boom") rfl rfl,
   (idle_teardown_behavior.2.2.2.1
      { bgInit with cleanupTimerArmed := true, isOffscreenDocumentReady := true }
      rfl rfl).1,
   (idle_teardown_behavior.2.2.2.2 { bgInit with cleanupTimerArmed := true } 9 rfl).1⟩

/-! ## Reconnection behavior of the client request queue -/

theorem attemptReconnect_false (s : MQState) : attemptReconnect false s = s := by
  unfold attemptReconnect
  split
  · rfl
  · rfl

theorem processNext_concat (s : MQState) :
    (processNextQueueItem s).dispatched ++ (processNextQueueItem s).messageQueue
      = s.dispatched ++ s.messageQueue ∧
    (processNextQueueItem s).nextId = s.nextId ∧
    (processNextQueueItem s).fired = s.fired := by
  unfold processNextQueueItem
  split
  · exact ⟨rfl, rfl, rfl⟩
  · split
    · exact ⟨rfl, rfl, rfl⟩
    case _ h rest heq =>
      refine ⟨?_, rfl, rfl⟩
      dsimp only
      rw [heq]
      simp

theorem mqPush_nodup {t : MQState}
    (h1 : (t.dispatched ++ t.messageQueue).Nodup)
    (h2 : ∀ x ∈ t.dispatched ++ t.messageQueue, x < t.nextId) :
    (t.dispatched ++ (t.messageQueue ++ [t.nextId])).Nodup ∧
    (∀ x ∈ t.dispatched ++ (t.messageQueue ++ [t.nextId]), x < t.nextId + 1) := by
  constructor
  · rw [← List.append_assoc, List.nodup_append]
    refine ⟨h1, by simp, ?_⟩
    intro a ha hb
    simp only [List.mem_singleton] at hb
    subst hb
    exact absurd (h2 _ ha) (lt_irrefl _)
  · intro x hx
    rw [← List.append_assoc] at hx
    rcases List.mem_append.mp hx with hx | hx
    · exact Nat.lt_succ_of_lt (h2 _ hx)
    · simp at hx
      omega

theorem mqConcat_nodup {s : MQState} (h : MQReach s) :
    (s.dispatched ++ s.messageQueue).Nodup ∧
    (∀ x ∈ s.dispatched ++ s.messageQueue, x < s.nextId) := by
  induction h with
  | init => simp [mqInit]
  | @submit t _ ih =>
    unfold sendEmailContent
    dsimp only
    have hP := mqPush_nodup ih.1 ih.2
    split
    · exact hP
    · have hc := processNext_concat
        { t with messageQueue := t.messageQueue ++ [t.nextId], nextId := t.nextId + 1 }
      constructor
      · rw [hc.1]
        exact hP.1
      · intro x hx
        rw [hc.1] at hx
        rw [hc.2.1]
        exact hP.2 x hx
  | @deliver id t _ ih =>
    unfold portOnMessage
    split
    case isTrue hmem =>
      have hc := processNext_concat
        { t with fired := t.fired ++ [id],
                 messageHandlers := t.messageHandlers.erase id,
                 isProcessingQueue := false }
      constructor
      · rw [hc.1]
        exact ih.1
      · intro x hx
        rw [hc.1] at hx
        rw [hc.2.1]
        exact ih.2 x hx
    case isFalse => exact ih
  | @disconnect t _ ih => exact ih
  | @reconnect ok t _ ih =>
    unfold attemptReconnect
    split
    · split
      · have hc := processNext_concat { t with portConnected := true, reconnectPending := false }
        constructor
        · rw [hc.1]
          exact ih.1
        · intro x hx
          rw [hc.1] at hx
          rw [hc.2.1]
          exact ih.2 x hx
      · exact ih
    · exact ih

/-- C7: on channel disconnect the client queue invokes no completion
handler and abandons nothing it has queued (fired log, handler table, queue
and dispatch log are untouched; only the reconnect loop is started); failed
reconnect attempts, scheduled on the fixed 1-second backoff, leave the state
unchanged no matter how many occur (the loop is unbounded); a successful
reconnect resumes dispatching the not-yet-dispatched requests in their
original queue order; and in every reachable state (disconnects included)
no request id is ever dispatched twice, so the already-dispatched-but-
unanswered request is never retried. -/
theorem disconnect_reconnect_behavior :
    RECONNECT_DELAY = 1000 ∧
    (∀ s, (portOnDisconnect s).fired = s.fired ∧
        (portOnDisconnect s).messageHandlers = s.messageHandlers ∧
        (portOnDisconnect s).messageQueue = s.messageQueue ∧
        (portOnDisconnect s).dispatched = s.dispatched ∧
        (portOnDisconnect s).reconnectPending = true) ∧
    (∀ s n, ((attemptReconnect false)^[n]) s = s) ∧
    (∀ s h t, s.reconnectPending = true → s.isProcessingQueue = false →
        s.messageQueue = h :: t →
        (attemptReconnect true s).portConnected = true ∧
        (attemptReconnect true s).dispatched = s.dispatched ++ [h] ∧
        (attemptReconnect true s).messageQueue = t ∧
        (attemptReconnect true s).fired = s.fired ∧
        (attemptReconnect true s).messageHandlers = s.messageHandlers ++ [h]) ∧
    (∀ s, MQReach s → s.dispatched.Nodup) := by
  refine ⟨rfl, fun s => ⟨rfl, rfl, rfl, rfl, rfl⟩, ?_, ?_, ?_⟩
  · intro s n
    exact Function.iterate_fixed (attemptReconnect_false s) n
  · intro s h t hpend hproc hq
    unfold attemptReconnect
    rw [if_pos hpend, if_pos rfl]
    unfold processNextQueueItem
    rw [if_neg (by simp [hq, hproc])]
    dsimp only
    rw [hq]
    exact ⟨rfl, rfl, rfl, rfl, rfl⟩
  · intro s hreach
    exact ((mqConcat_nodup hreach).1).sublist (List.sublist_append_left _ _)

/-- Witness for C7 at the concrete state reached by two submissions (the
first dispatched, the second still queued) followed by a disconnect: the
successful reconnect dispatches the queued request 1 next, in order. -/
theorem disconnect_reconnect_behavior_witness :
    (attemptReconnect true
        (portOnDisconnect (sendEmailContent (sendEmailContent mqInit)))).portConnected = true ∧
    (attemptReconnect true
        (portOnDisconnect (sendEmailContent (sendEmailContent mqInit)))).dispatched
      = (portOnDisconnect (sendEmailContent (sendEmailContent mqInit))).dispatched ++ [1] ∧
    (attemptReconnect true
        (portOnDisconnect (sendEmailContent (sendEmailContent mqInit)))).messageQueue = [] ∧
    (attemptReconnect true
        (portOnDisconnect (sendEmailContent (sendEmailContent mqInit)))).fired
      = (portOnDisconnect (sendEmailContent (sendEmailContent mqInit))).fired ∧
    (attemptReconnect true
        (portOnDisconnect (sendEmailContent (sendEmailContent mqInit)))).messageHandlers
      = (portOnDisconnect (sendEmailContent (sendEmailContent mqInit))).messageHandlers ++ [1] :=
  disconnect_reconnect_behavior.2.2.2.1 _ 1 [] (by decide) (by decide) (by decide)

/-! ## Exactly-once response delivery -/

theorem mem_drop_range_le {m k x : ℕ} (h : x ∈ (List.range m).drop k) : k ≤ x := by
  rw [List.mem_iff_getElem] at h
  obtain ⟨j, hj, hx⟩ := h
  rw [List.getElem_drop] at hx
  rw [List.getElem_range] at hx
  omega

/-- C8: on the orchestrator side, in every reachable state each dequeued
(admitted) request has exactly one posted terminal response once its
processing completes (responses plus the at-most-one in-flight request
account exactly for every dequeue); on the client side, delivering a
response whose request id has a registered handler fires that handler
exactly once — the firing log gains exactly one entry for the id, the
handler is removed, and a duplicate delivery of the same id changes
nothing; a delivery with no registered handler is a no-op. -/
theorem exactly_one_terminal_response :
    (∀ s, BGReachable s → s.responses.length + s.inFlight.length = s.dequeueCount) ∧
    (∀ s id, MQSteadyReach s → id ∈ s.messageHandlers →
        (portOnMessage s id).fired.count id = s.fired.count id + 1 ∧
        id ∉ (portOnMessage s id).messageHandlers ∧
        portOnMessage (portOnMessage s id) id = portOnMessage s id) ∧
    (∀ s id, id ∉ s.messageHandlers → portOnMessage s id = s) := by
  have hnofire : ∀ (s : MQState) (id : ℕ), id ∉ s.messageHandlers →
      portOnMessage s id = s := by
    intro s id hmem
    unfold portOnMessage
    rw [if_neg hmem]
  refine ⟨?_, ?_, hnofire⟩
  · intro s h
    exact (bgInv_reach h).2.2
  · intro s id hreach hmem
    obtain ⟨hd, hf, hfd, hdf, hh, hq, hdn, hp⟩ := mqInv_reach hreach
    have hdeq : s.dispatched.length = s.fired.length + 1 := by
      rcases Nat.lt_or_ge s.fired.length s.dispatched.length with hlt | hge
      · omega
      · exfalso
        have hnil : s.messageHandlers = [] := by
          rw [hh]
          exact List.drop_eq_nil_of_le (by simpa using hge)
        rw [hnil] at hmem
        simp at hmem
    have hid : id = s.fired.length := by
      have hhando : s.messageHandlers = [s.fired.length] := by
        rw [hh, hdeq, List.range_succ, List.drop_append_of_le_length (by simp)]
        simp
      rw [hhando] at hmem
      simpa using hmem
    have hfired : (portOnMessage s id).fired = s.fired ++ [id] := by
      unfold portOnMessage
      rw [if_pos hmem]
      exact (processNext_concat _).2.2
    have hnotmem : id ∉ (portOnMessage s id).messageHandlers := by
      obtain ⟨hd', hf', hfd', hdf', hh', hq', hdn', hp'⟩ :=
        mqInv_reach (MQSteadyReach.deliver id hreach)
      rw [hh']
      intro hmem'
      have hle := mem_drop_range_le hmem'
      rw [hfired] at hle
      simp at hle
      omega
    refine ⟨?_, hnotmem, hnofire _ _ hnotmem⟩
    rw [hfired]
    simp

/-- Witness for C8 at the concrete state with request 0 dispatched and its
response delivered. -/
theorem exactly_one_terminal_response_witness :
    (portOnMessage (sendEmailContent mqInit) 0).fired.count 0
        = (sendEmailContent mqInit).fired.count 0 + 1 ∧
    0 ∉ (portOnMessage (sendEmailContent mqInit) 0).messageHandlers ∧
    portOnMessage (portOnMessage (sendEmailContent mqInit) 0) 0
      = portOnMessage (sendEmailContent mqInit) 0 :=
  exactly_one_terminal_response.2.1 (sendEmailContent mqInit) 0
    (MQSteadyReach.submit MQSteadyReach.init) (by decide)
